import Mathlib

/-!
# Verification of the ACI pull state machine (`src/import/pull-aci.c`)

Shallow embedding of the ACI image-pull orchestrator: the session structure
`AciPull`, the job-completion handler `aci_pull_job_on_finished`, the
disk-open hook `aci_pull_job_on_open_disk`, progress reporting
`aci_pull_report_progress`, finalization `aci_pull_make_local_copy`,
teardown `aci_pull_unref`, and `aci_pull_start`.

External collaborators (curl glue, btrfs utilities, process primitives,
sd-event) are modelled by effect traces and by environment-chosen result
codes passed into the handlers.  Heap allocation is modelled as always
succeeding.  Child process identifiers returned by fork exceed 1 (pid 1 is
the init process), which is recorded in the enabledness condition of the
disk-open event.
-/

namespace AciPullSpec

/-- errno value for invalid argument (`-EINVAL` is returned on validation
failure). -/
def EINVAL : Int := 22

/-- errno value for device or resource busy (`-EBUSY` is returned when a
pull is already in progress). -/
def EBUSY : Int := 16

/-- One HTTP fetch, as the orchestrator sees it: the URL it was created
with, its progress percentage and terminal error code, plus two
bookkeeping flags recording whether the disk-open hook has fired and
whether the finished callback has been delivered (each happens at most
once per job in the curl glue). -/
structure PullJob where
  url : String := ""
  error : Int := 0
  progress_percent : Nat := 0
  opened : Bool := false
  finished : Bool := false
deriving Repr, DecidableEq

/-- The pull session state (`struct AciPull`).  The three job slots are
nullable and filled in phase order.  `has_on_finished` records whether the
caller supplied a completion callback (`on_finished != NULL`).
`terminated` is the result code delivered at the handler's `finish` label,
`none` while the session is still running.  `meta_start_count` counts how
many times a meta-discovery job was allocated and begun. -/
structure AciPull where
  image_root : String
  simple_discovery_job : Option PullJob := none
  meta_discovery_job : Option PullJob := none
  download_job : Option PullJob := none
  name : String := ""
  tag : String := ""
  id : String := ""
  local_name : Option String := none
  force_local : Bool := false
  final_path : Option String := none
  temp_path : Option String := none
  tar_pid : Int := 0
  has_on_finished : Bool
  terminated : Option Int := none
  meta_start_count : Nat := 0
deriving Repr, DecidableEq

/-- The three job slots, used to dispatch the completion handler by
identity (`i->simple_discovery_job == j` etc.). -/
inductive Slot
  | simple
  | meta
  | download
deriving Repr, DecidableEq

/-- Read a job slot of the session. -/
def AciPull.job (i : AciPull) : Slot → Option PullJob
  | Slot.simple => i.simple_discovery_job
  | Slot.meta => i.meta_discovery_job
  | Slot.download => i.download_job

/-- Replace a job slot of the session. -/
def setJob (i : AciPull) (s : Slot) (j : PullJob) : AciPull :=
  match s with
  | Slot.simple => { i with simple_discovery_job := some j }
  | Slot.meta => { i with meta_discovery_job := some j }
  | Slot.download => { i with download_job := some j }

/-- Whether the orchestrator wires an `on_open_disk` hook for the slot:
the simple-discovery job and the download job get one, the meta-discovery
job does not. -/
def hasOpenDiskHook : Slot → Bool
  | Slot.simple => true
  | Slot.meta => false
  | Slot.download => true

/-- Observable side effects on the external collaborators. -/
inductive Effect
  | killTar (pid : Int)
  | reapTar (pid : Int)
  | jobUnref (s : Slot)
  | glueUnref
  | eventUnref
  | removeSubvol (path : String)
  | createSubvol (path : String)
  | startMetaJob (url : String)
  | startDownloadJob (url : String)
  | progressNotify (percent : Nat)
  | localCopy (tempPath : String) (localName : String)
  | notifyFinished (r : Int)
  | eventExit (r : Int)
deriving Repr, DecidableEq

/-- Progress phases (`enum AciProgress`). -/
inductive AciProgress
  | simpleDiscovery
  | metaDiscovery
  | downloading
  | copying
deriving Repr, DecidableEq

/-- `aci_pull_report_progress`: the combined percentage published via
`sd_notifyf("X_IMPORT_PROGRESS=%u")`. -/
def aci_pull_report_progress (i : AciPull) (p : AciProgress) : Nat :=
  match p with
  | AciProgress.simpleDiscovery =>
      0 + (match i.simple_discovery_job with
           | some j => j.progress_percent * 50 / 100
           | none => 0)
  | AciProgress.metaDiscovery =>
      50 + (match i.meta_discovery_job with
            | some j => j.progress_percent * 5 / 100
            | none => 0)
  | AciProgress.downloading =>
      55 + (match i.download_job with
            | some j => j.progress_percent * 40 / 100
            | none => 0)
  | AciProgress.copying => 95

/-- Modelled from the spec: `tempfn_random` (path-util, not under src/)
derives a randomized sibling path from a base path — the staging snapshot
carries a randomized suffix during active extraction. -/
def tempfn_random (p : String) (rnd : String) : String := p ++ rnd

/-- `aci_pull_unref`: session teardown.  Kills and reaps a live extraction
subprocess, releases the three job slots, the curl glue and the event
loop, then removes the staging snapshot if one was created.  Returns the
effect trace and the (always null) resulting handle. -/
def aci_pull_unref (i : Option AciPull) : List Effect × Option AciPull :=
  match i with
  | none => ([], none)
  | some i =>
      let kills : List Effect :=
        if 1 < i.tar_pid then [Effect.killTar i.tar_pid, Effect.reapTar i.tar_pid] else []
      let removes : List Effect :=
        match i.temp_path with
        | some t => [Effect.removeSubvol t]
        | none => []
      (kills ++
        [Effect.jobUnref Slot.simple, Effect.jobUnref Slot.meta,
         Effect.jobUnref Slot.download, Effect.glueUnref, Effect.eventUnref] ++
        removes, none)

/-- `aci_pull_new`: a fresh zero-initialized session.  A null
`image_root` defaults to `/var/lib/machines`; `has_cb` records whether a
completion callback was supplied. -/
def aci_pull_new (image_root : Option String) (has_cb : Bool) : AciPull :=
  { image_root := image_root.getD "/var/lib/machines", has_on_finished := has_cb }

/-- `aci_pull_make_local_copy`: finalization.  A no-op returning 0 when no
local name was requested; otherwise computes `final_path` if still unset
and clones the staging snapshot to the local name
(`pull_make_local_copy`, whose result `copyR` is environment-chosen). -/
def aci_pull_make_local_copy (i : AciPull) (copyR : Int) : Int × AciPull × List Effect :=
  match i.local_name with
  | none => (0, i, [])
  | some l =>
      let i2 :=
        if i.final_path = none then
          { i with final_path := some (i.image_root ++ "/.aci-" ++ i.id) }
        else i
      let eff := [Effect.localCopy (i2.temp_path.getD "") l]
      if copyR < 0 then (copyR, i2, eff) else (0, i2, eff)

/-- `aci_pull_job_on_open_disk`: computes `final_path` as
`<image_root>/.aci-<id>` if unset, derives the randomized staging path
via `tempfn_random` and creates the btrfs subvolume there if unset, then
forks the tar extraction subprocess.  `rnd` is the random suffix and
`pid` the child pid the environment hands out; `forkOk` models whether
subvolume creation and fork succeeded (on failure no subprocess is
attached).  Its assertion `assert(i->tar_pid <= 0)` is the subject of a
theorem below, not re-checked here. -/
def aci_pull_job_on_open_disk (i : AciPull) (rnd : String) (pid : Int) (forkOk : Bool) :
    Int × AciPull × List Effect :=
  let i2 :=
    if i.final_path = none then
      { i with final_path := some (i.image_root ++ "/.aci-" ++ i.id) }
    else i
  let i3 :=
    if i2.temp_path = none then
      { i2 with temp_path := some (tempfn_random (i2.final_path.getD "") rnd) }
    else i2
  let effs : List Effect :=
    if i2.temp_path = none then [Effect.createSubvol (i3.temp_path.getD "")] else []
  if forkOk then (0, { i3 with tar_pid := pid }, effs) else (-EINVAL, i3, effs)

/-- Environment-chosen results of the external calls made on the copy
path: `reapR` is `wait_for_terminate_and_warn` for the tar subprocess,
`copyR` is `pull_make_local_copy`. -/
structure HandlerEnv where
  reapR : Int
  copyR : Int
deriving Repr, DecidableEq

/-- Delivery of the final result code (the handler's `finish` label): the
completion callback when one was supplied, otherwise `sd_event_exit` on
the session's event loop. -/
def aci_pull_finish (i : AciPull) (r : Int) : AciPull × List Effect :=
  ({ i with terminated := some r },
   if i.has_on_finished then [Effect.notifyFinished r] else [Effect.eventExit r])

/-- Tail of the copy path: run `aci_pull_make_local_copy`, then finish
with its error or with 0. -/
def aci_pull_copy_tail (i : AciPull) (env : HandlerEnv) (pre : List Effect) :
    AciPull × List Effect :=
  let mlc := aci_pull_make_local_copy i env.copyR
  if mlc.1 < 0 then
    let fin := aci_pull_finish mlc.2.1 mlc.1
    (fin.1, pre ++ mlc.2.2 ++ fin.2)
  else
    let fin := aci_pull_finish mlc.2.1 0
    (fin.1, pre ++ mlc.2.2 ++ fin.2)

/-- The handler's `copy` label: report the copying phase, close the disk
fd, reap a live tar subprocess (finishing with the reap error if it
failed), then make the local copy and finish. -/
def aci_pull_copy (i : AciPull) (env : HandlerEnv) : AciPull × List Effect :=
  let p := Effect.progressNotify (aci_pull_report_progress i AciProgress.copying)
  if 0 < i.tar_pid then
    let pid := i.tar_pid
    let i2 := { i with tar_pid := 0 }
    if env.reapR < 0 then
      let fin := aci_pull_finish i2 env.reapR
      (fin.1, p :: Effect.reapTar pid :: fin.2)
    else
      aci_pull_copy_tail i2 env [p, Effect.reapTar pid]
  else
    aci_pull_copy_tail i env [p]

/-- The fixed meta-discovery indirection URL. -/
def metaDiscoveryUrl : String := "https://coreos.com"

/-- The hard-coded URL the meta-discovery success path downloads. -/
def downloadUrl : String :=
  "https://github.com/coreos/etcd/releases/download/v2.0.5/etcd-v2.0.5-linux-amd64.aci"

/-- `aci_pull_job_on_finished`: dispatches on which job slot fired (by
identity in the C source).  Simple-discovery failure kills a live tar
subprocess and escalates to exactly one meta-discovery job;
simple-discovery success jumps straight to the copy path.  Meta-discovery
failure is terminal; its success starts the download job.  Download
failure is terminal; its success goes to the copy path.  Job allocation
(`pull_job_new`/`pull_job_begin`) is modelled as succeeding. -/
def aci_pull_job_on_finished (i : AciPull) (s : Slot) (env : HandlerEnv) :
    AciPull × List Effect :=
  match s with
  | Slot.simple =>
      let err := ((i.job Slot.simple).getD {}).error
      if err < 0 then
        let killed :=
          if 1 < i.tar_pid then
            ({ i with tar_pid := 0 }, [Effect.killTar i.tar_pid, Effect.reapTar i.tar_pid])
          else (i, ([] : List Effect))
        let i2 := { killed.1 with
          meta_discovery_job := some { url := metaDiscoveryUrl },
          meta_start_count := killed.1.meta_start_count + 1 }
        (i2, killed.2 ++ [Effect.startMetaJob metaDiscoveryUrl])
      else
        aci_pull_copy i env
  | Slot.meta =>
      let err := ((i.job Slot.meta).getD {}).error
      if err < 0 then
        aci_pull_finish i err
      else
        let i2 := { i with download_job := some { url := downloadUrl } }
        (i2, [Effect.startDownloadJob downloadUrl])
  | Slot.download =>
      let err := ((i.job Slot.download).getD {}).error
      if err < 0 then
        aci_pull_finish i err
      else
        aci_pull_copy i env

/-- Split a character list at `/` into path segments. -/
def split_slash (l : List Char) : List (List Char) :=
  l.foldr
    (fun c acc =>
      match acc with
      | [] => if c = '/' then [[], []] else [[c]]
      | seg :: rest => if c = '/' then [] :: seg :: rest else (c :: seg) :: rest)
    [[]]

/-- Modelled from the spec: `aci_name_is_valid` (import-util, not under
src/) — the artifact-naming grammar: non-empty, restricted character set,
no path-traversal segments (no empty, `.` or `..` path components). -/
def aci_name_is_valid (s : String) : Bool :=
  !s.data.isEmpty &&
  s.data.all (fun c => c.isAlphanum || c = '-' || c = '_' || c = '.' || c = '/') &&
  (split_slash s.data).all (fun seg => !(seg = [] || seg = ['.'] || seg = ['.', '.']))

/-- Modelled from the spec: `machine_name_is_valid` (not under src/) —
the runtime's resource-naming grammar: non-empty, bounded length,
restricted character set. -/
def machine_name_is_valid (s : String) : Bool :=
  !s.data.isEmpty && s.data.length ≤ 64 &&
  s.data.all (fun c => c.isAlphanum || c = '-' || c = '_' || c = '.')

/-- Architecture translation applied before URL substitution: systemd
spells the 64-bit x86 architecture `x86-64`, the ACI ecosystem `amd64`;
everything else passes through. -/
def translate_arch (arch : String) : String :=
  if arch = "x86-64" then "amd64" else arch

/-- `os[0] = tolower(os[0])`: only the first character of the detected OS
name is lower-cased. -/
def lower_first (s : String) : String :=
  match s.data with
  | [] => ""
  | c :: cs => String.mk (Char.toLower c :: cs)

/-- The simple-discovery URL built by `aci_pull_start` via `strjoina`:
protocol, name, the tag (taken verbatim as the version), the
first-character-lower-cased OS, the translated architecture, and the
fixed `aci` extension. -/
def aci_pull_url (name tag os arch : String) : String :=
  "https://" ++ name ++ "-" ++ tag ++ "-" ++ lower_first os ++ "-" ++
    translate_arch arch ++ ".aci"

/-- Full lower-casing of a string, character by character. -/
def str_to_lower (s : String) : String :=
  String.mk (s.data.map Char.toLower)

/-- The simple-discovery URL as the claim words it: the OS component
fully lower-cased. -/
def claimed_url (name version os arch : String) : String :=
  "https://" ++ name ++ "-" ++ version ++ "-" ++ str_to_lower os ++ "-" ++
    translate_arch arch ++ ".aci"

/-- The staging base path as the claim words it:
`<imageRoot>/.pull-<contentId>`. -/
def claimed_final_path (image_root id : String) : String :=
  image_root ++ "/.pull-" ++ id

/-- `aci_pull_start`: validates the name and the requested local name,
rejects a second concurrent pull, then records the inputs, assigns the
placeholder content id, builds the simple-discovery URL and begins the
simple-discovery job (allocation and begin modelled as succeeding).  `os`
and `arch` are the detected `uname` values. -/
def aci_pull_start (i : AciPull) (name tag : String) (loc : Option String)
    (force : Bool) (os arch : String) : Int × AciPull :=
  if !aci_name_is_valid name then (-EINVAL, i)
  else if (match loc with | some l => !machine_name_is_valid l | none => false) then
    (-EINVAL, i)
  else if i.simple_discovery_job.isSome then (-EBUSY, i)
  else
    (0, { i with
      id := "68b329da9893e34099c7d8ad5cb9c940",
      local_name := loc,
      force_local := force,
      name := name,
      tag := tag,
      simple_discovery_job := some { url := aci_pull_url name tag os arch } })

/-- Events delivered to the session by the curl glue: the disk-open hook
of a job (with the environment-chosen random suffix, child pid and
success flag) and the completion of a job with its error code (plus the
environment-chosen results of the external calls the handler makes). -/
inductive Ev
  | openDisk (s : Slot) (pid : Int) (rnd : String) (forkOk : Bool)
  | jobDone (s : Slot) (err : Int) (env : HandlerEnv)
deriving Repr, DecidableEq

/-- Enabledness of an event: the session has not finished; the slot's job
exists and has not yet finished.  The disk-open hook additionally
requires that the hook is wired for this slot, that it has not fired for
this job yet, and that the forked child pid exceeds 1. -/
def enabledB (i : AciPull) : Ev → Bool
  | Ev.openDisk s pid _ _ =>
      i.terminated.isNone && decide (1 < pid) && hasOpenDiskHook s &&
      (match i.job s with
       | some j => !j.finished && !j.opened
       | none => false)
  | Ev.jobDone s _ _ =>
      i.terminated.isNone &&
      (match i.job s with
       | some j => !j.finished
       | none => false)

/-- One step of the session: record the event on the job slot, then run
the corresponding handler.  Returns the new state and the effect
trace. -/
def stepE (i : AciPull) : Ev → AciPull × List Effect
  | Ev.openDisk s pid rnd forkOk =>
      let j := (i.job s).getD {}
      let i2 := setJob i s { j with opened := true }
      let res := aci_pull_job_on_open_disk i2 rnd pid forkOk
      (res.2.1, res.2.2)
  | Ev.jobDone s err env =>
      let j := (i.job s).getD {}
      let i2 := setJob i s { j with finished := true, error := err }
      aci_pull_job_on_finished i2 s env

/-- The state component of a step. -/
def stepFn (i : AciPull) (e : Ev) : AciPull := (stepE i e).1

/-- Session states reachable from a successful `aci_pull_start` on a
fresh session, under any sequence of enabled events. -/
inductive Reachable : AciPull → Prop
  | start (root : Option String) (cb : Bool) (name tag : String)
      (loc : Option String) (force : Bool) (os arch : String) :
      (aci_pull_start (aci_pull_new root cb) name tag loc force os arch).1 = 0 →
      Reachable (aci_pull_start (aci_pull_new root cb) name tag loc force os arch).2
  | step (i : AciPull) (e : Ev) : Reachable i → enabledB i e = true →
      Reachable (stepFn i e)

/-- The inductive session invariant maintained by every reachable state:
the simple-discovery slot is always filled after start; the tar pid is
either clear or a genuine child pid; a live tar subprocess was spawned by
the disk-open hook of the simple-discovery or the download job; the
meta-discovery job exists only after the simple-discovery job failed; the
download job exists only after the meta-discovery job succeeded; while
the meta-discovery phase is pending the tar pid is clear (until the
download job's own hook fires); a successful simple discovery is terminal
with no meta or download job; and the meta-job counter matches the slot. -/
structure Inv (i : AciPull) : Prop where
  simple_some : i.simple_discovery_job.isSome = true
  tar_zero_or_big : i.tar_pid = 0 ∨ 1 < i.tar_pid
  tar_spawner : 0 < i.tar_pid →
    (∃ j, i.simple_discovery_job = some j ∧ j.opened = true) ∨
    (∃ j, i.download_job = some j ∧ j.opened = true)
  meta_after_simple_failure : ∀ j, i.meta_discovery_job = some j →
    ∃ js, i.simple_discovery_job = some js ∧ js.finished = true ∧ js.error < 0
  download_after_meta : ∀ j, i.download_job = some j →
    ∃ jm, i.meta_discovery_job = some jm ∧ jm.finished = true ∧ 0 ≤ jm.error
  meta_tar : i.meta_discovery_job.isSome = true →
    i.tar_pid = 0 ∨ ∃ j, i.download_job = some j ∧ j.opened = true
  simple_success_terminal : ∀ js, i.simple_discovery_job = some js →
    js.finished = true → 0 ≤ js.error →
    i.meta_discovery_job = none ∧ i.download_job = none ∧ i.terminated.isSome = true
  count_eq : i.meta_start_count = if i.meta_discovery_job.isSome then 1 else 0

/-- Fixture: a job that has reported 40% progress. -/
def wJob : PullJob := { progress_percent := 40 }

/-- Fixture: a session with all three job slots at 40% progress. -/
def wProgressState : AciPull :=
  { image_root := "r"
    has_on_finished := true
    simple_discovery_job := some wJob
    meta_discovery_job := some wJob
    download_job := some wJob }

/-- Fixture: a session with a live tar subprocess and a staging snapshot. -/
def wTeardownState : AciPull :=
  { image_root := "r"
    has_on_finished := true
    tar_pid := 7
    temp_path := some "T" }

/-- Fixture: a session whose meta-discovery job failed with `-3`. -/
def wFinState : AciPull :=
  { image_root := "r"
    has_on_finished := true
    meta_discovery_job := some { error := -3 } }

/-- Fixture: the session right after a successful start. -/
def wStart : AciPull :=
  (aci_pull_start (aci_pull_new none true) "example" "v2.0.0" none false
    "Linux" "x86-64").2

theorem finish_state (i : AciPull) (r : Int) :
    (aci_pull_finish i r).1 = { i with terminated := some r } := rfl

theorem finish_eff (i : AciPull) (r : Int) :
    (aci_pull_finish i r).2 =
      if i.has_on_finished then [Effect.notifyFinished r] else [Effect.eventExit r] := rfl

theorem mlc_spec (i : AciPull) (c : Int) :
    ((aci_pull_make_local_copy i c).1 = 0 ∨ (aci_pull_make_local_copy i c).1 = c) ∧
    (aci_pull_make_local_copy i c).2.1.simple_discovery_job = i.simple_discovery_job ∧
    (aci_pull_make_local_copy i c).2.1.meta_discovery_job = i.meta_discovery_job ∧
    (aci_pull_make_local_copy i c).2.1.download_job = i.download_job ∧
    (aci_pull_make_local_copy i c).2.1.tar_pid = i.tar_pid ∧
    (aci_pull_make_local_copy i c).2.1.terminated = i.terminated ∧
    (aci_pull_make_local_copy i c).2.1.has_on_finished = i.has_on_finished ∧
    (aci_pull_make_local_copy i c).2.1.meta_start_count = i.meta_start_count ∧
    (∀ e ∈ (aci_pull_make_local_copy i c).2.2, ∃ t l, e = Effect.localCopy t l) := by
  unfold aci_pull_make_local_copy
  cases i.local_name with
  | none => simp
  | some l =>
      by_cases hf : i.final_path = none <;> by_cases hc : c < 0 <;>
        simp [hf, hc]

theorem copy_tail_spec (i : AciPull) (env : HandlerEnv) (pre : List Effect) :
    ∃ (r : Int) (mid : List Effect),
      (aci_pull_copy_tail i env pre).1.terminated = some r ∧
      (aci_pull_copy_tail i env pre).1.simple_discovery_job = i.simple_discovery_job ∧
      (aci_pull_copy_tail i env pre).1.meta_discovery_job = i.meta_discovery_job ∧
      (aci_pull_copy_tail i env pre).1.download_job = i.download_job ∧
      (aci_pull_copy_tail i env pre).1.tar_pid = i.tar_pid ∧
      (aci_pull_copy_tail i env pre).1.has_on_finished = i.has_on_finished ∧
      (aci_pull_copy_tail i env pre).1.meta_start_count = i.meta_start_count ∧
      (aci_pull_copy_tail i env pre).2 = pre ++ mid ++
        (if i.has_on_finished then [Effect.notifyFinished r] else [Effect.eventExit r]) ∧
      (∀ e ∈ mid, ∃ t l, e = Effect.localCopy t l) := by
  obtain ⟨hr, h1, h2, h3, h4, h5, h6, h7, h8⟩ := mlc_spec i env.copyR
  unfold aci_pull_copy_tail
  by_cases hneg : (aci_pull_make_local_copy i env.copyR).1 < 0
  · refine ⟨(aci_pull_make_local_copy i env.copyR).1,
      (aci_pull_make_local_copy i env.copyR).2.2, ?_⟩
    simp [hneg, finish_state, finish_eff, h1, h2, h3, h4, h5, h6, h7, h8]
    exact h8
  · refine ⟨0, (aci_pull_make_local_copy i env.copyR).2.2, ?_⟩
    simp [hneg, finish_state, finish_eff, h1, h2, h3, h4, h5, h6, h7, h8]
    exact h8

theorem copy_spec (i : AciPull) (env : HandlerEnv) :
    ∃ r : Int,
      (aci_pull_copy i env).1.terminated = some r ∧
      (aci_pull_copy i env).1.simple_discovery_job = i.simple_discovery_job ∧
      (aci_pull_copy i env).1.meta_discovery_job = i.meta_discovery_job ∧
      (aci_pull_copy i env).1.download_job = i.download_job ∧
      (aci_pull_copy i env).1.has_on_finished = i.has_on_finished ∧
      (aci_pull_copy i env).1.meta_start_count = i.meta_start_count ∧
      ((aci_pull_copy i env).1.tar_pid = 0 ∨ (aci_pull_copy i env).1.tar_pid = i.tar_pid) ∧
      Effect.progressNotify 95 ∈ (aci_pull_copy i env).2 ∧
      (i.has_on_finished = true → Effect.notifyFinished r ∈ (aci_pull_copy i env).2) ∧
      (i.has_on_finished = false → Effect.eventExit r ∈ (aci_pull_copy i env).2) ∧
      (∀ u, Effect.startMetaJob u ∉ (aci_pull_copy i env).2) ∧
      (∀ u, Effect.startDownloadJob u ∉ (aci_pull_copy i env).2) := by
  unfold aci_pull_copy
  by_cases htar : 0 < i.tar_pid
  · by_cases hreap : env.reapR < 0
    · refine ⟨env.reapR, ?_⟩
      simp only [htar, hreap, if_true, ite_true]
      refine ⟨rfl, rfl, rfl, rfl, rfl, rfl, Or.inl rfl, ?_, ?_, ?_, ?_, ?_⟩
      · simp [finish_eff, aci_pull_report_progress]
      · intro hcb
        simp [finish_eff, hcb]
      · intro hcb
        simp [finish_eff, hcb]
      · intro u hu
        simp only [finish_eff, List.mem_cons] at hu
        rcases hu with hu | hu | hu
        · exact absurd hu (by simp)
        · exact absurd hu (by simp)
        · revert hu
          split <;> simp
      · intro u hu
        simp only [finish_eff, List.mem_cons] at hu
        rcases hu with hu | hu | hu
        · exact absurd hu (by simp)
        · exact absurd hu (by simp)
        · revert hu
          split <;> simp
    · obtain ⟨r, mid, ht, h1, h2, h3, h4, h5, h6, heff, hmid⟩ :=
        copy_tail_spec { i with tar_pid := 0 } env
          [Effect.progressNotify (aci_pull_report_progress i AciProgress.copying),
           Effect.reapTar i.tar_pid]
      refine ⟨r, ?_⟩
      simp only [htar, hreap, if_true, ite_true, if_false, ite_false]
      refine ⟨ht, h1, h2, h3, h5, h6, Or.inl h4, ?_, ?_, ?_, ?_, ?_⟩
      · rw [heff]
        simp [aci_pull_report_progress]
      · intro hcb
        rw [heff]
        simp [hcb]
      · intro hcb
        rw [heff]
        simp [hcb]
      · intro u hu
        rw [heff] at hu
        rcases List.mem_append.1 hu with hu | hu
        · rcases List.mem_append.1 hu with hu | hu
          · exact absurd hu (by simp)
          · obtain ⟨t, l, he⟩ := hmid _ hu
            exact absurd he (by simp)
        · revert hu
          split <;> simp
      · intro u hu
        rw [heff] at hu
        rcases List.mem_append.1 hu with hu | hu
        · rcases List.mem_append.1 hu with hu | hu
          · exact absurd hu (by simp)
          · obtain ⟨t, l, he⟩ := hmid _ hu
            exact absurd he (by simp)
        · revert hu
          split <;> simp
  · obtain ⟨r, mid, ht, h1, h2, h3, h4, h5, h6, heff, hmid⟩ :=
      copy_tail_spec i env
        [Effect.progressNotify (aci_pull_report_progress i AciProgress.copying)]
    refine ⟨r, ?_⟩
    simp only [htar, if_false, ite_false]
    refine ⟨ht, h1, h2, h3, h5, h6, Or.inr h4, ?_, ?_, ?_, ?_, ?_⟩
    · rw [heff]
      simp [aci_pull_report_progress]
    · intro hcb
      rw [heff]
      simp [hcb]
    · intro hcb
      rw [heff]
      simp [hcb]
    · intro u hu
      rw [heff] at hu
      rcases List.mem_append.1 hu with hu | hu
      · rcases List.mem_append.1 hu with hu | hu
        · exact absurd hu (by simp)
        · obtain ⟨t, l, he⟩ := hmid _ hu
          exact absurd he (by simp)
      · revert hu
        split <;> simp
    · intro u hu
      rw [heff] at hu
      rcases List.mem_append.1 hu with hu | hu
      · rcases List.mem_append.1 hu with hu | hu
        · exact absurd hu (by simp)
        · obtain ⟨t, l, he⟩ := hmid _ hu
          exact absurd he (by simp)
      · revert hu
        split <;> simp

theorem open_disk_fields (i : AciPull) (rnd : String) (pid : Int) (fk : Bool) :
    (aci_pull_job_on_open_disk i rnd pid fk).2.1.simple_discovery_job = i.simple_discovery_job ∧
    (aci_pull_job_on_open_disk i rnd pid fk).2.1.meta_discovery_job = i.meta_discovery_job ∧
    (aci_pull_job_on_open_disk i rnd pid fk).2.1.download_job = i.download_job ∧
    (aci_pull_job_on_open_disk i rnd pid fk).2.1.terminated = i.terminated ∧
    (aci_pull_job_on_open_disk i rnd pid fk).2.1.meta_start_count = i.meta_start_count ∧
    (aci_pull_job_on_open_disk i rnd pid fk).2.1.has_on_finished = i.has_on_finished ∧
    (fk = true → (aci_pull_job_on_open_disk i rnd pid fk).2.1.tar_pid = pid) ∧
    (fk = false → (aci_pull_job_on_open_disk i rnd pid fk).2.1.tar_pid = i.tar_pid) := by
  unfold aci_pull_job_on_open_disk
  by_cases hf : i.final_path = none <;> by_cases ht : i.temp_path = none <;>
    cases fk <;> simp [hf, ht]

theorem inv_start (root : Option String) (cb : Bool) (name tag : String)
    (loc : Option String) (force : Bool) (os arch : String)
    (h : (aci_pull_start (aci_pull_new root cb) name tag loc force os arch).1 = 0) :
    Inv (aci_pull_start (aci_pull_new root cb) name tag loc force os arch).2 := by
  unfold aci_pull_start at h ⊢
  split at h
  · exact absurd h (by simp [EINVAL])
  · split at h
    · exact absurd h (by simp [EINVAL])
    · split at h
      · exact absurd h (by simp [EBUSY])
      · rename_i h1 h2 h3
        simp only [h1, h2, h3, if_false, ite_false, Bool.not_eq_true] at *
        refine ⟨rfl, Or.inl rfl, ?_, ?_, ?_, ?_, ?_, ?_⟩
        · intro htar
          exact absurd htar (by simp [aci_pull_new])
        · intro j hj
          exact absurd hj (by simp [aci_pull_new])
        · intro j hj
          exact absurd hj (by simp [aci_pull_new])
        · intro hm
          exact absurd hm (by simp [aci_pull_new])
        · intro js hjs hfin _
          have : js = { url := aci_pull_url name tag os arch } := by
            have h4 := hjs
            simp [aci_pull_new] at h4
            exact h4.symm
          subst this
          exact absurd hfin (by simp)
        · simp [aci_pull_new]

theorem inv_step (i : AciPull) (e : Ev) (hi : Inv i) (he : enabledB i e = true) :
    Inv (stepFn i e) := by
  obtain ⟨hS, hT01, hTsp, hM, hD, hMT, hSS, hC⟩ := hi
  cases e with
  | openDisk s pid rnd fk =>
    cases s with
    | meta =>
        simp [enabledB, hasOpenDiskHook] at he
    | simple =>
        obtain ⟨js, hjs⟩ := Option.isSome_iff_exists.mp hS
        simp only [enabledB, hasOpenDiskHook, AciPull.job, hjs, Bool.and_eq_true,
          decide_eq_true_eq, Option.isNone_iff_eq_none, Bool.not_eq_true'] at he
        obtain ⟨⟨⟨hterm, hpid⟩, -⟩, hfin, hop⟩ := he
        have hMnone : i.meta_discovery_job = none := by
          cases hmeq : i.meta_discovery_job with
          | none => rfl
          | some jm =>
              obtain ⟨js2, hjs2, hfin2, -⟩ := hM jm hmeq
              rw [hjs] at hjs2
              simp only [Option.some.injEq] at hjs2
              subst hjs2
              simp [hfin] at hfin2
        have hDnone : i.download_job = none := by
          cases hdeq : i.download_job with
          | none => rfl
          | some jd =>
              obtain ⟨jm, hjm, -, -⟩ := hD jd hdeq
              rw [hMnone] at hjm
              cases hjm
        simp only [stepFn, stepE, AciPull.job, hjs, Option.getD_some, setJob]
        obtain ⟨f1, f2, f3, f4, f5, f6, f7, f8⟩ :=
          open_disk_fields { i with simple_discovery_job := some { js with opened := true } }
            rnd pid fk
        refine ⟨?_, ?_, ?_, ?_, ?_, ?_, ?_, ?_⟩
        · rw [f1]
          simp
        · cases fk with
          | false =>
              rw [f8 rfl]
              exact hT01
          | true =>
              rw [f7 rfl]
              exact Or.inr hpid
        · intro htar
          cases fk with
          | true =>
              left
              exact ⟨{ js with opened := true }, by rw [f1], rfl⟩
          | false =>
              rw [f8 rfl] at htar
              rcases hTsp htar with ⟨j, hj, hjo⟩ | ⟨j, hj, hjo⟩
              · rw [hjs] at hj
                simp only [Option.some.injEq] at hj
                subst hj
                simp [hop] at hjo
              · rw [hDnone] at hj
                cases hj
        · intro j hj
          rw [f2] at hj
          simp only [hMnone] at hj
          cases hj
        · intro j hj
          rw [f3] at hj
          simp only [hDnone] at hj
          cases hj
        · intro hms
          rw [f2] at hms
          simp [hMnone] at hms
        · intro js2 hjs2 hfin2 herr2
          rw [f1] at hjs2
          simp only [Option.some.injEq] at hjs2
          subst hjs2
          simp [hfin] at hfin2
        · rw [f5, f2]
          simp only [hMnone]
          simp [hC, hMnone]
    | download =>
        cases hdeq : i.download_job with
        | none =>
            simp [enabledB, hasOpenDiskHook, AciPull.job, hdeq] at he
        | some jd =>
            simp only [enabledB, hasOpenDiskHook, AciPull.job, hdeq, Bool.and_eq_true,
              decide_eq_true_eq, Option.isNone_iff_eq_none, Bool.not_eq_true'] at he
            obtain ⟨⟨⟨hterm, hpid⟩, -⟩, hfin, hop⟩ := he
            obtain ⟨jm, hjm, hjmfin, hjmerr⟩ := hD jd hdeq
            obtain ⟨js, hjs, hjsfin, hjserr⟩ := hM jm hjm
            have htar0 : i.tar_pid = 0 := by
              rcases hMT (by rw [hjm] ; rfl) with h0 | ⟨j, hj, hjo⟩
              · exact h0
              · rw [hdeq] at hj
                simp only [Option.some.injEq] at hj
                subst hj
                simp [hop] at hjo
            simp only [stepFn, stepE, AciPull.job, hdeq, Option.getD_some, setJob]
            obtain ⟨f1, f2, f3, f4, f5, f6, f7, f8⟩ :=
              open_disk_fields { i with download_job := some { jd with opened := true } }
                rnd pid fk
            refine ⟨?_, ?_, ?_, ?_, ?_, ?_, ?_, ?_⟩
            · rw [f1]
              simpa using hS
            · cases fk with
              | false =>
                  rw [f8 rfl]
                  left
                  simpa using htar0
              | true =>
                  rw [f7 rfl]
                  exact Or.inr hpid
            · intro htar
              cases fk with
              | true =>
                  right
                  exact ⟨{ jd with opened := true }, by rw [f3], rfl⟩
              | false =>
                  rw [f8 rfl] at htar
                  simp [htar0] at htar
            · intro j hj
              exact ⟨js, by rw [f1] ; simpa using hjs, hjsfin, hjserr⟩
            · intro j hj
              exact ⟨jm, by rw [f2] ; simpa using hjm, hjmfin, hjmerr⟩
            · intro hms
              right
              exact ⟨{ jd with opened := true }, by rw [f3], rfl⟩
            · intro js2 hjs2 hfin2 herr2
              rw [f1] at hjs2
              simp only [hjs, Option.some.injEq] at hjs2
              subst hjs2
              exact absurd herr2 (by omega)
            · rw [f5, f2]
              simpa using hC
  | jobDone s err env =>
    cases s with
    | simple =>
        cases hseq : i.simple_discovery_job with
        | none => simp [enabledB, AciPull.job, hseq] at he
        | some js =>
            simp only [enabledB, AciPull.job, hseq, Bool.and_eq_true,
              Option.isNone_iff_eq_none, Bool.not_eq_true'] at he
            obtain ⟨hterm, hfin⟩ := he
            have hMnone : i.meta_discovery_job = none := by
              cases hmeq : i.meta_discovery_job with
              | none => rfl
              | some jm =>
                  obtain ⟨js2, hjs2, hfin2, -⟩ := hM jm hmeq
                  rw [hseq] at hjs2
                  simp only [Option.some.injEq] at hjs2
                  subst hjs2
                  simp [hfin] at hfin2
            have hDnone : i.download_job = none := by
              cases hdeq : i.download_job with
              | none => rfl
              | some jd =>
                  obtain ⟨jm, hjm, -, -⟩ := hD jd hdeq
                  rw [hMnone] at hjm
                  cases hjm
            simp only [stepFn, stepE, AciPull.job, hseq, Option.getD_some, setJob,
              aci_pull_job_on_finished]
            by_cases herr : err < 0
            · simp only [herr, if_true, ite_true]
              by_cases h1t : (1 : Int) < i.tar_pid
              · simp only [h1t, if_true, ite_true]
                refine ⟨rfl, Or.inl rfl, ?_, ?_, ?_, ?_, ?_, ?_⟩
                · intro htar
                  simp at htar
                · intro j hj
                  exact ⟨{ js with finished := true, error := err }, rfl, rfl, herr⟩
                · intro j hj
                  simp [hDnone] at hj
                · intro hms
                  exact Or.inl rfl
                · intro js2 hjs2 hfin2 herr2
                  simp only [Option.some.injEq] at hjs2
                  subst hjs2
                  simp at herr2
                  omega
                · simp [hC, hMnone]
              · simp only [h1t, if_false, ite_false]
                have htar0 : i.tar_pid = 0 := by
                  rcases hT01 with h | h
                  · exact h
                  · exact absurd h h1t
                refine ⟨rfl, Or.inl (by simpa using htar0), ?_, ?_, ?_, ?_, ?_, ?_⟩
                · intro htar
                  simp [htar0] at htar
                · intro j hj
                  exact ⟨{ js with finished := true, error := err }, rfl, rfl, herr⟩
                · intro j hj
                  simp [hDnone] at hj
                · intro hms
                  exact Or.inl (by simpa using htar0)
                · intro js2 hjs2 hfin2 herr2
                  simp only [Option.some.injEq] at hjs2
                  subst hjs2
                  simp at herr2
                  omega
                · simp [hC, hMnone]
            · simp only [herr, if_false, ite_false]
              obtain ⟨r, ct, cS, cM, cD, cH, cC, cT, -, -, -, -⟩ :=
                copy_spec
                  { i with
                    simple_discovery_job := some { js with finished := true, error := err } }
                  env
              refine ⟨?_, ?_, ?_, ?_, ?_, ?_, ?_, ?_⟩
              · rw [cS]
                simp
              · rcases cT with h | h
                · exact Or.inl h
                · rw [h]
                  simpa using hT01
              · intro htar
                rcases cT with h | h
                · rw [h] at htar
                  simp at htar
                · rw [h] at htar
                  simp only at htar
                  rcases hTsp htar with ⟨j, hj, hjo⟩ | ⟨j, hj, hjo⟩
                  · rw [hseq] at hj
                    simp only [Option.some.injEq] at hj
                    subst hj
                    exact Or.inl ⟨{ js with finished := true, error := err },
                      by rw [cS], hjo⟩
                  · rw [hDnone] at hj
                    cases hj
              · intro j hj
                rw [cM] at hj
                simp [hMnone] at hj
              · intro j hj
                rw [cD] at hj
                simp [hDnone] at hj
              · intro hms
                rw [cM] at hms
                simp [hMnone] at hms
              · intro js2 hjs2 hfin2 herr2
                refine ⟨by rw [cM] ; simpa using hMnone, by rw [cD] ; simpa using hDnone, ?_⟩
                rw [ct]
                rfl
              · rw [cC, cM]
                simp [hC, hMnone]
    | meta =>
        cases hmeq : i.meta_discovery_job with
        | none => simp [enabledB, AciPull.job, hmeq] at he
        | some jm =>
            simp only [enabledB, AciPull.job, hmeq, Bool.and_eq_true,
              Option.isNone_iff_eq_none, Bool.not_eq_true'] at he
            obtain ⟨hterm, hfin⟩ := he
            obtain ⟨js, hjs, hjsfin, hjserr⟩ := hM jm hmeq
            have hDnone : i.download_job = none := by
              cases hdeq : i.download_job with
              | none => rfl
              | some jd =>
                  obtain ⟨jm2, hjm2, hfin2, -⟩ := hD jd hdeq
                  rw [hmeq] at hjm2
                  simp only [Option.some.injEq] at hjm2
                  subst hjm2
                  simp [hfin] at hfin2
            have htar0 : i.tar_pid = 0 := by
              rcases hMT (by rw [hmeq] ; rfl) with h0 | ⟨j, hj, hjo⟩
              · exact h0
              · rw [hDnone] at hj
                cases hj
            simp only [stepFn, stepE, AciPull.job, hmeq, Option.getD_some, setJob,
              aci_pull_job_on_finished]
            by_cases herr : err < 0
            · simp only [herr, if_true, ite_true, aci_pull_finish]
              refine ⟨by simpa using hS, Or.inl (by simpa using htar0), ?_, ?_, ?_, ?_, ?_, ?_⟩
              · intro htar
                simp [htar0] at htar
              · intro j hj
                exact ⟨js, by simpa using hjs, hjsfin, hjserr⟩
              · intro j hj
                simp [hDnone] at hj
              · intro hms
                exact Or.inl (by simpa using htar0)
              · intro js2 hjs2 hfin2 herr2
                simp only [hjs, Option.some.injEq] at hjs2
                subst hjs2
                omega
              · simp [hC, hmeq]
            · simp only [herr, if_false, ite_false]
              refine ⟨by simpa using hS, Or.inl (by simpa using htar0), ?_, ?_, ?_, ?_, ?_, ?_⟩
              · intro htar
                simp [htar0] at htar
              · intro j hj
                exact ⟨js, by simpa using hjs, hjsfin, hjserr⟩
              · intro j hj
                refine ⟨{ jm with finished := true, error := err }, rfl, rfl, ?_⟩
                show (0 : Int) ≤ err
                omega
              · intro hms
                exact Or.inl (by simpa using htar0)
              · intro js2 hjs2 hfin2 herr2
                simp only [hjs, Option.some.injEq] at hjs2
                subst hjs2
                omega
              · simp [hC, hmeq]
    | download =>
        cases hdeq : i.download_job with
        | none => simp [enabledB, AciPull.job, hdeq] at he
        | some jd =>
            simp only [enabledB, AciPull.job, hdeq, Bool.and_eq_true,
              Option.isNone_iff_eq_none, Bool.not_eq_true'] at he
            obtain ⟨hterm, hfin⟩ := he
            obtain ⟨jm, hjm, hjmfin, hjmerr⟩ := hD jd hdeq
            obtain ⟨js, hjs, hjsfin, hjserr⟩ := hM jm hjm
            simp only [stepFn, stepE, AciPull.job, hdeq, Option.getD_some, setJob,
              aci_pull_job_on_finished]
            by_cases herr : err < 0
            · simp only [herr, if_true, ite_true, aci_pull_finish]
              refine ⟨by simpa using hS, by simpa using hT01, ?_, ?_, ?_, ?_, ?_, ?_⟩
              · intro htar
                simp only at htar
                rcases hTsp htar with ⟨j, hj, hjo⟩ | ⟨j, hj, hjo⟩
                · exact Or.inl ⟨j, by simpa using hj, hjo⟩
                · rw [hdeq] at hj
                  simp only [Option.some.injEq] at hj
                  subst hj
                  exact Or.inr ⟨{ jd with finished := true, error := err }, rfl, hjo⟩
              · intro j hj
                exact ⟨js, by simpa using hjs, hjsfin, hjserr⟩
              · intro j hj
                exact ⟨jm, by simpa using hjm, hjmfin, hjmerr⟩
              · intro hms
                rcases hMT (by rw [hjm] ; rfl) with h0 | ⟨j, hj, hjo⟩
                · exact Or.inl (by simpa using h0)
                · rw [hdeq] at hj
                  simp only [Option.some.injEq] at hj
                  subst hj
                  exact Or.inr ⟨{ jd with finished := true, error := err }, rfl, hjo⟩
              · intro js2 hjs2 hfin2 herr2
                simp only [hjs, Option.some.injEq] at hjs2
                subst hjs2
                omega
              · simp [hC, hjm]
            · simp only [herr, if_false, ite_false]
              obtain ⟨r, ct, cS, cM, cD, cH, cC, cT, -, -, -, -⟩ :=
                copy_spec
                  { i with
                    download_job := some { jd with finished := true, error := err } }
                  env
              refine ⟨?_, ?_, ?_, ?_, ?_, ?_, ?_, ?_⟩
              · rw [cS]
                simpa using hS
              · rcases cT with h | h
                · exact Or.inl h
                · rw [h]
                  simpa using hT01
              · intro htar
                rcases cT with h | h
                · rw [h] at htar
                  simp at htar
                · rw [h] at htar
                  simp only at htar
                  rcases hTsp htar with ⟨j, hj, hjo⟩ | ⟨j, hj, hjo⟩
                  · exact Or.inl ⟨j, by rw [cS] ; simpa using hj, hjo⟩
                  · rw [hdeq] at hj
                    simp only [Option.some.injEq] at hj
                    subst hj
                    exact Or.inr ⟨{ jd with finished := true, error := err },
                      by rw [cD], hjo⟩
              · intro j hj
                exact ⟨js, by rw [cS] ; simpa using hjs, hjsfin, hjserr⟩
              · intro j hj
                exact ⟨jm, by rw [cM] ; simpa using hjm, hjmfin, hjmerr⟩
              · intro hms
                rcases cT with h | h
                · exact Or.inl h
                · rcases hMT (by rw [hjm] ; rfl) with h0 | ⟨j, hj, hjo⟩
                  · rw [h]
                    exact Or.inl (by simpa using h0)
                  · rw [hdeq] at hj
                    simp only [Option.some.injEq] at hj
                    subst hj
                    exact Or.inr ⟨{ jd with finished := true, error := err },
                      by rw [cD], hjo⟩
              · intro js2 hjs2 hfin2 herr2
                rw [cS] at hjs2
                simp only [hjs, Option.some.injEq] at hjs2
                subst hjs2
                omega
              · rw [cC, cM]
                simp [hC, hjm]

theorem reachable_inv (i : AciPull) (h : Reachable i) : Inv i := by
  induction h with
  | start root cb name tag loc force os arch h0 =>
      exact inv_start root cb name tag loc force os arch h0
  | step j e _ he ih => exact inv_step j e ih he

/-- C9: in every reachable session state in which a disk-open hook can
fire (for the simple-discovery or the download job, including the path
where the download job's hook fires after a failed simple discovery whose
subprocess was killed and reaped during escalation), no extraction
subprocess is attached: `tar_pid <= 0`, i.e. the hook's
`assert(i->tar_pid <= 0)` holds. -/
theorem aci_C9_open_disk_assert (i : AciPull) (s : Slot) (pid : Int) (rnd : String)
    (fk : Bool) (hr : Reachable i)
    (he : enabledB i (Ev.openDisk s pid rnd fk) = true) : i.tar_pid ≤ 0 := by
  obtain ⟨hS, hT01, hTsp, hM, hD, hMT, hSS, hC⟩ := reachable_inv i hr
  cases s with
  | meta => simp [enabledB, hasOpenDiskHook] at he
  | simple =>
      cases hseq : i.simple_discovery_job with
      | none => simp [enabledB, AciPull.job, hseq] at he
      | some js =>
          simp only [enabledB, hasOpenDiskHook, AciPull.job, hseq, Bool.and_eq_true,
            decide_eq_true_eq, Option.isNone_iff_eq_none, Bool.not_eq_true'] at he
          obtain ⟨⟨⟨hterm, hpid⟩, -⟩, hfin, hop⟩ := he
          by_contra hlt
          push_neg at hlt
          rcases hTsp hlt with ⟨j, hj, hjo⟩ | ⟨j, hj, hjo⟩
          · rw [hseq] at hj
            simp only [Option.some.injEq] at hj
            subst hj
            simp [hop] at hjo
          · obtain ⟨jm, hjm, -, -⟩ := hD j hj
            obtain ⟨js2, hjs2, hfin2, -⟩ := hM jm hjm
            rw [hseq] at hjs2
            simp only [Option.some.injEq] at hjs2
            subst hjs2
            simp [hfin] at hfin2
  | download =>
      cases hdeq : i.download_job with
      | none => simp [enabledB, AciPull.job, hdeq] at he
      | some jd =>
          simp only [enabledB, hasOpenDiskHook, AciPull.job, hdeq, Bool.and_eq_true,
            decide_eq_true_eq, Option.isNone_iff_eq_none, Bool.not_eq_true'] at he
          obtain ⟨⟨⟨hterm, hpid⟩, -⟩, hfin, hop⟩ := he
          obtain ⟨jm, hjm, -, -⟩ := hD jd hdeq
          rcases hMT (by rw [hjm] ; rfl) with h0 | ⟨j, hj, hjo⟩
          · omega
          · rw [hdeq] at hj
            simp only [Option.some.injEq] at hj
            subst hj
            simp [hop] at hjo

/-- Witness for C9 at the freshly started session: the simple-discovery
disk-open hook is enabled there and the tar pid is clear. -/
theorem aci_C9_open_disk_assert_witness : wStart.tar_pid ≤ 0 :=
  aci_C9_open_disk_assert wStart Slot.simple 42 "r1" true
    (Reachable.start none true "example" "v2.0.0" none false "Linux" "x86-64" (by decide))
    (by decide)

/-- C1: a failed simple discovery starts exactly one meta-discovery job
(the counter can never exceed one at any reachable state, and equals one
right after the escalating transition, which does not finish the
session); a failed meta discovery is terminal with the job's error code,
starts no further job and does not escalate again. -/
theorem aci_C1_meta_escalation (i : AciPull) (hr : Reachable i) :
    i.meta_start_count ≤ 1 ∧
    (∀ err env, enabledB i (Ev.jobDone Slot.simple err env) = true → err < 0 →
      (stepFn i (Ev.jobDone Slot.simple err env)).meta_start_count = 1 ∧
      (stepFn i (Ev.jobDone Slot.simple err env)).meta_discovery_job.isSome = true ∧
      (stepFn i (Ev.jobDone Slot.simple err env)).terminated = none) ∧
    (∀ err env, enabledB i (Ev.jobDone Slot.meta err env) = true → err < 0 →
      (stepFn i (Ev.jobDone Slot.meta err env)).terminated = some err ∧
      (stepFn i (Ev.jobDone Slot.meta err env)).download_job = none ∧
      (stepFn i (Ev.jobDone Slot.meta err env)).meta_start_count = i.meta_start_count) := by
  obtain ⟨hS, hT01, hTsp, hM, hD, hMT, hSS, hC⟩ := reachable_inv i hr
  refine ⟨?_, ?_, ?_⟩
  · rw [hC]
    split <;> omega
  · intro err env he herr
    cases hseq : i.simple_discovery_job with
    | none => simp [enabledB, AciPull.job, hseq] at he
    | some js =>
        simp only [enabledB, AciPull.job, hseq, Bool.and_eq_true,
          Option.isNone_iff_eq_none, Bool.not_eq_true'] at he
        obtain ⟨hterm, hfin⟩ := he
        have hMnone : i.meta_discovery_job = none := by
          cases hmeq : i.meta_discovery_job with
          | none => rfl
          | some jm =>
              obtain ⟨js2, hjs2, hfin2, -⟩ := hM jm hmeq
              rw [hseq] at hjs2
              simp only [Option.some.injEq] at hjs2
              subst hjs2
              simp [hfin] at hfin2
        simp only [stepFn, stepE, AciPull.job, hseq, Option.getD_some, setJob,
          aci_pull_job_on_finished]
        simp only [herr, if_true, ite_true]
        by_cases h1t : (1 : Int) < i.tar_pid <;>
          simp only [h1t, if_true, ite_true, if_false, ite_false] <;>
          exact ⟨by simp [hC, hMnone], rfl, hterm⟩
  · intro err env he herr
    cases hmeq : i.meta_discovery_job with
    | none => simp [enabledB, AciPull.job, hmeq] at he
    | some jm =>
        simp only [enabledB, AciPull.job, hmeq, Bool.and_eq_true,
          Option.isNone_iff_eq_none, Bool.not_eq_true'] at he
        obtain ⟨hterm, hfin⟩ := he
        have hDnone : i.download_job = none := by
          cases hdeq : i.download_job with
          | none => rfl
          | some jd =>
              obtain ⟨jm2, hjm2, hfin2, -⟩ := hD jd hdeq
              rw [hmeq] at hjm2
              simp only [Option.some.injEq] at hjm2
              subst hjm2
              simp [hfin] at hfin2
        simp only [stepFn, stepE, AciPull.job, hmeq, Option.getD_some, setJob,
          aci_pull_job_on_finished]
        simp only [herr, if_true, ite_true, aci_pull_finish]
        exact ⟨trivial, by simpa using hDnone, trivial⟩

/-- Witness for C1: from the started session, a failed simple discovery
yields meta-start-count one, and a subsequent failed meta discovery
terminates with its error code. -/
theorem aci_C1_meta_escalation_witness :
    (stepFn wStart (Ev.jobDone Slot.simple (-2) ⟨0, 0⟩)).meta_start_count = 1 ∧
    (stepFn (stepFn wStart (Ev.jobDone Slot.simple (-2) ⟨0, 0⟩))
        (Ev.jobDone Slot.meta (-5) ⟨0, 0⟩)).terminated = some (-5) := by
  constructor
  · exact ((aci_C1_meta_escalation wStart
      (Reachable.start none true "example" "v2.0.0" none false "Linux" "x86-64"
        (by decide))).2.1 (-2) ⟨0, 0⟩ (by decide) (by decide)).1
  · exact ((aci_C1_meta_escalation (stepFn wStart (Ev.jobDone Slot.simple (-2) ⟨0, 0⟩))
      (Reachable.step wStart (Ev.jobDone Slot.simple (-2) ⟨0, 0⟩)
        (Reachable.start none true "example" "v2.0.0" none false "Linux" "x86-64"
          (by decide)) (by decide))).2.2 (-5) ⟨0, 0⟩ (by decide) (by decide)).1

/-- C2: when the simple-discovery job completes successfully, no
meta-discovery and no download job is ever created (in every reachable
state a successfully finished simple-discovery job coexists with empty
meta and download slots and a delivered result), and its completion
transition goes straight to the copy step: it reports the copying phase,
starts no job, and delivers the final result. -/
theorem aci_C2_simple_success_short_circuit (i : AciPull) (hr : Reachable i) :
    (∀ js, i.simple_discovery_job = some js → js.finished = true → 0 ≤ js.error →
      i.meta_discovery_job = none ∧ i.download_job = none ∧ i.terminated.isSome = true) ∧
    (∀ err env, enabledB i (Ev.jobDone Slot.simple err env) = true → 0 ≤ err →
      (stepFn i (Ev.jobDone Slot.simple err env)).meta_discovery_job = none ∧
      (stepFn i (Ev.jobDone Slot.simple err env)).download_job = none ∧
      (stepFn i (Ev.jobDone Slot.simple err env)).terminated.isSome = true ∧
      Effect.progressNotify 95 ∈ (stepE i (Ev.jobDone Slot.simple err env)).2 ∧
      (∀ u, Effect.startMetaJob u ∉ (stepE i (Ev.jobDone Slot.simple err env)).2) ∧
      (∀ u, Effect.startDownloadJob u ∉ (stepE i (Ev.jobDone Slot.simple err env)).2)) := by
  obtain ⟨hS, hT01, hTsp, hM, hD, hMT, hSS, hC⟩ := reachable_inv i hr
  refine ⟨hSS, ?_⟩
  intro err env he herrge
  have herr : ¬ err < 0 := by omega
  cases hseq : i.simple_discovery_job with
  | none => simp [enabledB, AciPull.job, hseq] at he
  | some js =>
      simp only [enabledB, AciPull.job, hseq, Bool.and_eq_true,
        Option.isNone_iff_eq_none, Bool.not_eq_true'] at he
      obtain ⟨hterm, hfin⟩ := he
      have hMnone : i.meta_discovery_job = none := by
        cases hmeq : i.meta_discovery_job with
        | none => rfl
        | some jm =>
            obtain ⟨js2, hjs2, hfin2, -⟩ := hM jm hmeq
            rw [hseq] at hjs2
            simp only [Option.some.injEq] at hjs2
            subst hjs2
            simp [hfin] at hfin2
      have hDnone : i.download_job = none := by
        cases hdeq : i.download_job with
        | none => rfl
        | some jd =>
            obtain ⟨jm, hjm, -, -⟩ := hD jd hdeq
            rw [hMnone] at hjm
            cases hjm
      simp only [stepFn, stepE, AciPull.job, hseq, Option.getD_some, setJob,
        aci_pull_job_on_finished]
      simp only [herr, if_false, ite_false]
      obtain ⟨r, ct, cS, cM, cD, cH, cC, cT, c95, -, -, cnm, cnd⟩ :=
        copy_spec
          { i with
            simple_discovery_job := some { js with finished := true, error := err } }
          env
      exact ⟨by rw [cM] ; simpa using hMnone, by rw [cD] ; simpa using hDnone,
        by rw [ct] ; rfl, c95, cnm, cnd⟩

/-- Witness for C2: from the started session, a successful simple
discovery terminates the session with both fallback slots still empty. -/
theorem aci_C2_witness :
    (stepFn wStart (Ev.jobDone Slot.simple 0 ⟨0, 0⟩)).meta_discovery_job = none ∧
    (stepFn wStart (Ev.jobDone Slot.simple 0 ⟨0, 0⟩)).download_job = none ∧
    (stepFn wStart (Ev.jobDone Slot.simple 0 ⟨0, 0⟩)).terminated.isSome = true := by
  have h := (aci_C2_simple_success_short_circuit wStart
    (Reachable.start none true "example" "v2.0.0" none false "Linux" "x86-64"
      (by decide))).2 0 ⟨0, 0⟩ (by decide) (by decide)
  exact ⟨h.1, h.2.1, h.2.2.1⟩

/-- C3: the combined progress equals the phase band floor plus the
job's own progress linearly rescaled into the band width, in integer
arithmetic: simple discovery 0 + p*50/100, meta discovery 50 + p*5/100,
downloading 55 + p*40/100, and copying is the constant 95. -/
theorem aci_C3_progress_bands (i : AciPull) (p : Nat) :
    (∀ j, i.simple_discovery_job = some j → j.progress_percent = p →
      aci_pull_report_progress i AciProgress.simpleDiscovery = 0 + p * 50 / 100) ∧
    (∀ j, i.meta_discovery_job = some j → j.progress_percent = p →
      aci_pull_report_progress i AciProgress.metaDiscovery = 50 + p * 5 / 100) ∧
    (∀ j, i.download_job = some j → j.progress_percent = p →
      aci_pull_report_progress i AciProgress.downloading = 55 + p * 40 / 100) ∧
    aci_pull_report_progress i AciProgress.copying = 95 := by
  refine ⟨?_, ?_, ?_, rfl⟩ <;> intro j hj hp <;>
    simp [aci_pull_report_progress, hj, hp]

/-- Witness for C3 at jobs reporting 40%: bands give 20, 52, 71, 95. -/
theorem aci_C3_progress_bands_witness :
    aci_pull_report_progress wProgressState AciProgress.simpleDiscovery = 20 ∧
    aci_pull_report_progress wProgressState AciProgress.metaDiscovery = 52 ∧
    aci_pull_report_progress wProgressState AciProgress.downloading = 71 ∧
    aci_pull_report_progress wProgressState AciProgress.copying = 95 := by
  obtain ⟨h1, h2, h3, h4⟩ := aci_C3_progress_bands wProgressState 40
  exact ⟨h1 wJob rfl rfl, h2 wJob rfl rfl, h3 wJob rfl rfl, h4⟩

/-- C4 counterexample: the persistent-staging base path computed by the
disk-open hook is not `<imageRoot>/.pull-<contentId>` — on the started
session the code computes an `.aci-`-prefixed name instead. -/
theorem aci_C4_staging_path_cex :
    ((aci_pull_job_on_open_disk wStart "x" 42 true).2.1.final_path ==
      some (claimed_final_path wStart.image_root wStart.id)) = false := by
  decide

/-- C4 (amended): when the disk sink is opened with no paths computed
yet, the persistent-staging base path is `<imageRoot>/.aci-<contentId>`
and the staging snapshot is created at the randomized sibling path
derived from that name by suffixing the random token. -/
theorem aci_C4_staging_path (i : AciPull) (rnd : String) (pid : Int) (fk : Bool)
    (hf : i.final_path = none) (ht : i.temp_path = none) :
    (aci_pull_job_on_open_disk i rnd pid fk).2.1.final_path =
      some (i.image_root ++ "/.aci-" ++ i.id) ∧
    (aci_pull_job_on_open_disk i rnd pid fk).2.1.temp_path =
      some (tempfn_random (i.image_root ++ "/.aci-" ++ i.id) rnd) ∧
    Effect.createSubvol (tempfn_random (i.image_root ++ "/.aci-" ++ i.id) rnd) ∈
      (aci_pull_job_on_open_disk i rnd pid fk).2.2 := by
  unfold aci_pull_job_on_open_disk
  cases fk <;> simp [hf, ht, tempfn_random]

/-- Witness for C4 at the started session with random token `RND`. -/
theorem aci_C4_staging_path_witness :
    (aci_pull_job_on_open_disk wStart "RND" 42 true).2.1.final_path =
      some "/var/lib/machines/.aci-68b329da9893e34099c7d8ad5cb9c940" ∧
    (aci_pull_job_on_open_disk wStart "RND" 42 true).2.1.temp_path =
      some "/var/lib/machines/.aci-68b329da9893e34099c7d8ad5cb9c940RND" := by
  obtain ⟨h1, h2, h3⟩ := aci_C4_staging_path wStart "RND" 42 true rfl rfl
  exact ⟨h1.trans (by decide), h2.trans (by decide)⟩

/-- C5 counterexample: the discovery URL constructed by start is not the
one with a fully lower-cased OS component — the code lower-cases only
the first character, so a detected OS name `SunOS` yields `sunOS`. -/
theorem aci_C5_url_cex :
    (Option.map PullJob.url
        (aci_pull_start (aci_pull_new none true) "example" "v2.0.0" none false
          "SunOS" "x86-64").2.simple_discovery_job ==
      some (claimed_url "example" "v2.0.0" "SunOS" "x86-64")) = false := by
  decide

/-- C5 (amended): for every successful start, the simple-discovery URL is
`https://<name>-<tag>-<os>-<arch>.aci` where the tag is taken verbatim as
the version token, the OS has only its first character lower-cased, and
the architecture is translated by the static table mapping `x86-64` to
`amd64` and passing everything else through; the construction is a pure
string computation. -/
theorem aci_C5_url (i : AciPull) (name tag : String) (loc : Option String)
    (force : Bool) (os arch : String)
    (h : (aci_pull_start i name tag loc force os arch).1 = 0) :
    Option.map PullJob.url
        ((aci_pull_start i name tag loc force os arch).2.simple_discovery_job) =
      some ("https://" ++ name ++ "-" ++ tag ++ "-" ++ lower_first os ++ "-" ++
        translate_arch arch ++ ".aci") ∧
    translate_arch "x86-64" = "amd64" ∧
    (arch ≠ "x86-64" → translate_arch arch = arch) := by
  unfold aci_pull_start at h ⊢
  split at h
  · exact absurd h (by simp [EINVAL])
  · split at h
    · exact absurd h (by simp [EINVAL])
    · split at h
      · exact absurd h (by simp [EBUSY])
      · rename_i h1 h2 h3
        rw [if_neg h1, if_neg h2, if_neg h3]
        refine ⟨rfl, by decide, ?_⟩
        intro hne
        simp [translate_arch, hne]

/-- Witness for C5 at a successful start with OS `Linux` and an unmapped
architecture `arm64`. -/
theorem aci_C5_url_witness :
    Option.map PullJob.url
        ((aci_pull_start (aci_pull_new none true) "example" "v2.0.0" none false
          "Linux" "arm64").2.simple_discovery_job) =
      some "https://example-v2.0.0-linux-arm64.aci" ∧
    translate_arch "arm64" = "arm64" := by
  obtain ⟨h1, h2, h3⟩ := aci_C5_url (aci_pull_new none true) "example" "v2.0.0" none false
    "Linux" "arm64" (by decide)
  exact ⟨h1.trans (by decide), h3 (by decide)⟩

/-- C6: teardown is idempotent — on a null handle it is a no-op with no
effects, and a second teardown after a first one is a no-op — and, for
every session state, a live extraction subprocess is killed and reaped
strictly before the staging snapshot it was writing into is removed. -/
theorem aci_C6_teardown (i : AciPull) :
    aci_pull_unref none = ([], none) ∧
    aci_pull_unref (aci_pull_unref (some i)).2 = ([], none) ∧
    (1 < i.tar_pid → ∀ t, i.temp_path = some t →
      ∃ mid, (aci_pull_unref (some i)).1 =
        Effect.killTar i.tar_pid :: Effect.reapTar i.tar_pid ::
          (mid ++ [Effect.removeSubvol t])) := by
  refine ⟨rfl, rfl, ?_⟩
  intro h t ht
  refine ⟨[Effect.jobUnref Slot.simple, Effect.jobUnref Slot.meta,
    Effect.jobUnref Slot.download, Effect.glueUnref, Effect.eventUnref], ?_⟩
  simp [aci_pull_unref, h, ht]

/-- Witness for C6 on a session with a live tar subprocess (pid 7) and a
staging snapshot `T`: the kill and reap precede the snapshot removal. -/
theorem aci_C6_teardown_witness :
    ∃ mid, (aci_pull_unref (some wTeardownState)).1 =
      Effect.killTar 7 :: Effect.reapTar 7 :: (mid ++ [Effect.removeSubvol "T"]) :=
  (aci_C6_teardown wTeardownState).2.2 (by decide) "T" rfl

/-- C7: start rejects synchronously with `-EINVAL` on an invalid name,
with `-EINVAL` on an invalid requested local name, and with `-EBUSY`
when a pull is already in progress, in each case returning the session
state unchanged (no job created, nothing recorded). -/
theorem aci_C7_start_validation (i : AciPull) (name tag : String) (loc : Option String)
    (force : Bool) (os arch : String) :
    (aci_name_is_valid name = false →
      aci_pull_start i name tag loc force os arch = (-EINVAL, i)) ∧
    (∀ l, loc = some l → machine_name_is_valid l = false →
      aci_pull_start i name tag loc force os arch = (-EINVAL, i)) ∧
    (aci_name_is_valid name = true →
      (match loc with | some l => machine_name_is_valid l = true | none => True) →
      i.simple_discovery_job.isSome = true →
      aci_pull_start i name tag loc force os arch = (-EBUSY, i)) := by
  refine ⟨?_, ?_, ?_⟩
  · intro h
    simp [aci_pull_start, h]
  · intro l hl h
    subst hl
    by_cases hn : aci_name_is_valid name <;> simp [aci_pull_start, hn, h]
  · intro hn hl hb
    cases loc with
    | none => simp [aci_pull_start, hn, hb]
    | some l => simp [aci_pull_start, hn, hb, hl]

/-- Witness for C7: a name with a traversal segment, a local name with a
space, and a busy session are each rejected with the matching code and
an unchanged session. -/
theorem aci_C7_start_validation_witness :
    aci_pull_start (aci_pull_new none true) "a/../b" "t" none false "Linux" "x86-64" =
      (-EINVAL, aci_pull_new none true) ∧
    aci_pull_start (aci_pull_new none true) "example" "t" (some "my box") false
      "Linux" "x86-64" = (-EINVAL, aci_pull_new none true) ∧
    aci_pull_start wProgressState "example" "t" none false "Linux" "x86-64" =
      (-EBUSY, wProgressState) := by
  refine ⟨?_, ?_, ?_⟩
  · exact (aci_C7_start_validation (aci_pull_new none true) "a/../b" "t" none false
      "Linux" "x86-64").1 (by decide)
  · exact (aci_C7_start_validation (aci_pull_new none true) "example" "t"
      (some "my box") false "Linux" "x86-64").2.1 "my box" rfl (by decide)
  · exact (aci_C7_start_validation wProgressState "example" "t" none false
      "Linux" "x86-64").2.2 (by decide) trivial rfl

/-- C8: with no requested local name, finalization is a no-op returning
success — same state, no effects, nothing created — and the staging
snapshot, when one exists, is removed at teardown. -/
theorem aci_C8_no_local_noop (i : AciPull) (copyR : Int) :
    (i.local_name = none → aci_pull_make_local_copy i copyR = (0, i, [])) ∧
    (∀ t, i.temp_path = some t →
      Effect.removeSubvol t ∈ (aci_pull_unref (some i)).1) := by
  refine ⟨?_, ?_⟩
  · intro h
    simp [aci_pull_make_local_copy, h]
  · intro t ht
    by_cases hk : 1 < i.tar_pid <;> simp [aci_pull_unref, ht, hk]

/-- Witness for C8 on a session with no local name and staging `T`. -/
theorem aci_C8_no_local_noop_witness :
    aci_pull_make_local_copy wTeardownState 0 = (0, wTeardownState, []) ∧
    Effect.removeSubvol "T" ∈ (aci_pull_unref (some wTeardownState)).1 := by
  obtain ⟨h1, h2⟩ := aci_C8_no_local_noop wTeardownState 0
  exact ⟨h1 rfl, h2 "T" rfl⟩

/-- C10: the completion handler never silently drops a result code — on
every branch that terminates the session with code r it emits exactly the
configured delivery (the completion callback when one was supplied,
otherwise an event-loop exit request) carrying that same r, and on the
non-terminal branches it emits neither. -/
theorem aci_C10_result_delivery (i : AciPull) (s : Slot) (env : HandlerEnv)
    (h : i.terminated = none) :
    (∀ r, (aci_pull_job_on_finished i s env).1.terminated = some r →
      (i.has_on_finished = true →
        Effect.notifyFinished r ∈ (aci_pull_job_on_finished i s env).2) ∧
      (i.has_on_finished = false →
        Effect.eventExit r ∈ (aci_pull_job_on_finished i s env).2)) ∧
    ((aci_pull_job_on_finished i s env).1.terminated = none →
      (∀ r, Effect.notifyFinished r ∉ (aci_pull_job_on_finished i s env).2) ∧
      (∀ r, Effect.eventExit r ∉ (aci_pull_job_on_finished i s env).2)) := by
  cases s with
  | simple =>
      simp only [aci_pull_job_on_finished]
      by_cases herr : ((i.job Slot.simple).getD {}).error < 0
      · simp only [herr, if_true, ite_true]
        by_cases h1t : (1 : Int) < i.tar_pid <;>
          simp only [h1t, if_true, ite_true, if_false, ite_false] <;>
          refine ⟨fun r hr => ?_, fun _ => ⟨fun r hmem => ?_, fun r hmem => ?_⟩⟩ <;>
          first
          | (rw [h] at hr ; simp at hr)
          | simp at hmem
      · rw [if_neg herr]
        obtain ⟨r0, ct, cS, cM, cD, cH, cC, cT, c95, cnf, cee, cnm, cnd⟩ := copy_spec i env
        refine ⟨?_, ?_⟩
        · intro r hr
          rw [ct] at hr
          simp only [Option.some.injEq] at hr
          subst hr
          exact ⟨cnf, cee⟩
        · intro hnone
          rw [ct] at hnone
          simp at hnone
  | meta =>
      simp only [aci_pull_job_on_finished]
      by_cases herr : ((i.job Slot.meta).getD {}).error < 0
      · simp only [herr, if_true, ite_true, aci_pull_finish]
        refine ⟨?_, ?_⟩
        · intro r hr
          simp only [Option.some.injEq] at hr
          subst hr
          constructor <;> intro hcb <;> simp [hcb]
        · intro hnone
          simp at hnone
      · rw [if_neg herr]
        refine ⟨?_, ?_⟩
        · intro r hr
          rw [h] at hr
          simp at hr
        · intro _
          constructor <;> intro r hmem <;> simp at hmem
  | download =>
      simp only [aci_pull_job_on_finished]
      by_cases herr : ((i.job Slot.download).getD {}).error < 0
      · simp only [herr, if_true, ite_true, aci_pull_finish]
        refine ⟨?_, ?_⟩
        · intro r hr
          simp only [Option.some.injEq] at hr
          subst hr
          constructor <;> intro hcb <;> simp [hcb]
        · intro hnone
          simp at hnone
      · simp only [herr, if_false, ite_false]
        obtain ⟨r0, ct, cS, cM, cD, cH, cC, cT, c95, cnf, cee, cnm, cnd⟩ := copy_spec i env
        refine ⟨?_, ?_⟩
        · intro r hr
          rw [ct] at hr
          simp only [Option.some.injEq] at hr
          subst hr
          exact ⟨cnf, cee⟩
        · intro hnone
          rw [ct] at hnone
          simp at hnone

/-- Witness for C10: a failed meta-discovery job on a session with a
completion callback delivers exactly its error code through the
callback. -/
theorem aci_C10_result_delivery_witness :
    (aci_pull_job_on_finished wFinState Slot.meta ⟨0, 0⟩).1.terminated = some (-3) ∧
    Effect.notifyFinished (-3) ∈ (aci_pull_job_on_finished wFinState Slot.meta ⟨0, 0⟩).2 := by
  refine ⟨by decide, ?_⟩
  exact ((aci_C10_result_delivery wFinState Slot.meta ⟨0, 0⟩ rfl).1 (-3) (by decide)).1 rfl

end AciPullSpec
